import Mathlib

/-!
Verification of the khype snapshot-reporter scripts.

This file is a shallow embedding of the two JavaScript source files
(`fetch-thbill-positions.js` and the unnamed K-HYPE fetcher script) into
Lean 4. Numeric token amounts are modelled as exact rationals (ℚ):
`parseFloat` is embedded as a parser of plain decimal literals
(sign, integer digits, optional fraction; the exponent forms and
leading-whitespace skipping of the full JS builtin are outside the model,
and no claim depends on them), with `none` standing for JS `NaN`.
`Number.prototype.toFixed` is embedded by its ECMAScript definition:
the sign is split off; when the magnitude is at least `10 ^ 21` the
result is `ToString(x)` — exponential notation, with the exact decimal
digits standing in for shortest-round-trip digits, the same exact-value
idealization used everywhere else in this file — and otherwise the
magnitude is rounded to the nearest multiple of `10 ^ (-f)` (ties to
the larger candidate, as the ECMAScript text prescribes) and rendered
with exactly `f` digits after the decimal point. Rational values are
assembled with `mkRat` on integer numerators and denominators (the same
value as the corresponding `ℚ` division, kept in kernel-computable
form).
JS objects used as string-keyed maps are embedded as association lists
in insertion order, matching the enumeration order of `Object.entries`
for the scripts' hex-address keys; for canonical integer-like keys
(position ids) JS instead enumerates in ascending numeric order — a
difference of bucket order only, to which the partition statements are
insensitive and relative to which the sorting claim is stated (its
tie-break is about the group list as fed to the sort).
-/

/-- One decimal digit character; the argument is taken modulo 10
(mirroring how the digits of a number are extracted). -/
def digitChar9 (d : ℕ) : Char :=
  match d % 10 with
  | 0 => '0' | 1 => '1' | 2 => '2' | 3 => '3' | 4 => '4'
  | 5 => '5' | 6 => '6' | 7 => '7' | 8 => '8' | _ => '9'

/-- Numeric value of a list of decimal digit characters. -/
def digitsVal (ds : List Char) : ℕ :=
  ds.foldl (fun n c => 10 * n + (c.toNat - 48)) 0

/-- Model of `parseFloat` on plain decimal literals: optional sign,
integer digits, optional `.` and fraction digits, ignoring any trailing
garbage (as `parseFloat` does); `none` models `NaN` (no digits found).
The value is `sign * (intPart + fracPart / 10 ^ fracLen)`, assembled as
a single `mkRat`. -/
def parseFloatQ (s : String) : Option ℚ :=
  let cs := s.data
  let neg : Bool := match cs with | '-' :: _ => true | _ => false
  let cs1 : List Char :=
    match cs with
    | '-' :: t => t
    | '+' :: t => t
    | _ => cs
  let ip := cs1.takeWhile Char.isDigit
  let rest := cs1.dropWhile Char.isDigit
  let fp : List Char :=
    match rest with
    | '.' :: t => t.takeWhile Char.isDigit
    | _ => []
  if ip.isEmpty ∧ fp.isEmpty then none
  else
    let n : ℤ := ((digitsVal ip * 10 ^ fp.length + digitsVal fp : ℕ) : ℤ)
    some (mkRat (if neg then -n else n) (10 ^ fp.length))

/-- The `w` most significant decimal digits of `m` (which represents a
fraction `m / 10 ^ w`), most significant first, zero padded to width `w`. -/
def padDigits : ℕ → ℕ → List Char
  | 0, _ => []
  | w + 1, m => digitChar9 (m / 10 ^ w) :: padDigits w m

/-- Decimal digits of `n`, least significant first (empty for 0);
structural recursion on a fuel bound (`n` itself is always enough fuel,
since the number of digits of `n` never exceeds `n` for `n ≠ 0`). -/
def natCharsAux : ℕ → ℕ → List Char
  | 0, _ => []
  | fuel + 1, n => if n = 0 then [] else digitChar9 n :: natCharsAux fuel (n / 10)

/-- Decimal rendering of a natural number, as JS renders the integer part. -/
def natChars (n : ℕ) : List Char :=
  if n = 0 then ['0'] else (natCharsAux n n).reverse

/-- Model of `toFixed f` on a non-negative rational `q = a / d`: round `q * 10 ^ f`
to the nearest integer — computed as `⌊(2 * a * 10 ^ f + d) / (2 * d)⌋`,
which is `⌊q * 10 ^ f + 1 / 2⌋`, ties going to the larger candidate as the
ECMAScript definition picks the larger `n` — then print with exactly `f`
fraction digits. -/
def toFixedNNChars (f : ℕ) (q : ℚ) : List Char :=
  let scaled : ℚ := mkRat (q.num * ((10 ^ f : ℕ) : ℤ)) q.den
  let n : ℕ := (scaled.num.toNat * 2 + scaled.den) / (2 * scaled.den)
  natChars (n / 10 ^ f) ++ '.' :: padDigits f (n % 10 ^ f)

/-- Model of ECMAScript `ToString` for the `x >= 10 ^ 21` branch of
`toFixed` (every double of that magnitude is integral, so the argument
is a natural number): the significand is the exact decimal digits with
trailing zeros stripped (the exact-value idealization of the
shortest-round-trip digits), rendered in exponential notation
`d.ddd...e+(n-1)` — e.g. `10 ^ 21 ↦ "1e+21"`. -/
def numberToStringExp (m : ℕ) : List Char :=
  let ds := natChars m
  let sd := (ds.reverse.dropWhile (fun c => c = '0')).reverse
  sd.take 1 ++ (if sd.length ≤ 1 then [] else '.' :: sd.drop 1) ++
    ('e' :: '+' :: natChars (ds.length - 1))

/-- Magnitude part of `Number.prototype.toFixed f`: ECMAScript returns
`ToString(x)` when the sign-stripped value is at least `10 ^ 21` (the
value there is necessarily integral, extracted with `Rat.floor`), and
the fixed-point rendering with exactly `f` fraction digits otherwise. -/
def toFixedMagChars (f : ℕ) (q : ℚ) : List Char :=
  if ((10 ^ 21 : ℕ) : ℚ) ≤ q then numberToStringExp (Rat.floor q).toNat
  else toFixedNNChars f q

/-- Model of `Number.prototype.toFixed f`: split off the sign, then
render the magnitude. -/
def toFixedChars (f : ℕ) (q : ℚ) : List Char :=
  if q < 0 then '-' :: toFixedMagChars f (-q) else toFixedMagChars f q

/-- Embedding of `formatTokenAmount` (identical in both scripts):
empty/`"0"` inputs and inputs parsing to 0 render as `"0"`; otherwise
`toFixed(6)` when the parsed value is `>= 1`, else `toFixed(12)`.
The `none` (`NaN`) parse renders as `"NaN"`, as `NaN.toFixed` does. -/
def formatTokenAmount (amount : String) : String :=
  if amount = "" ∨ amount = "0" then "0"
  else
    match parseFloatQ amount with
    | none => "NaN"
    | some q =>
      if q = 0 then "0"
      else if 1 ≤ q then String.mk (toFixedChars 6 q)
      else String.mk (toFixedChars 12 q)

/-- Length of the fraction part of a rendered decimal string: the number
of characters after the first `'.'`, or `none` when there is no point. -/
def fracTailLen : List Char → Option ℕ
  | [] => none
  | c :: t => if c = '.' then some t.length else fracTailLen t

/-- Number of fractional digits of a rendered string, if it has a point. -/
def fracCount (s : String) : Option ℕ :=
  fracTailLen s.data

/-- ASCII lowercasing of one character, the fragment of JS
`String.prototype.toLowerCase` relevant to hex addresses. -/
def lowerChar (c : Char) : Char :=
  if 'A' ≤ c ∧ c ≤ 'Z' then Char.ofNat (c.toNat + 32) else c

/-- Model of `owner.toLowerCase()` on the ASCII strings the scripts use. -/
def toLowerCase (s : String) : String :=
  String.mk (s.data.map lowerChar)

/-- A token descriptor as selected by the GraphQL queries. -/
structure Tok where
  id : String
  name : String
deriving DecidableEq

/-- The pool reference embedded in each snapshot. -/
structure PoolRef where
  id : String
  token0 : Tok
  token1 : Tok
deriving DecidableEq

/-- The position reference embedded in each snapshot; `none` models a
`null`/absent `position` field, and an empty `id` models a falsy id. -/
structure PosRef where
  id : String
deriving DecidableEq

/-- A position snapshot as returned by the subgraph. All amounts are the
decimal strings the subgraph serves. -/
structure Snapshot where
  id : String
  owner : String
  pool : PoolRef
  position : Option PosRef
  blockNumber : String
  timestamp : String
  liquidity : String
  depositedToken0 : String
  depositedToken1 : String
  withdrawnToken0 : String
  withdrawnToken1 : String
  collectedFeesToken0 : String
  collectedFeesToken1 : String
deriving DecidableEq

/-- The hardcoded user allow-list of the filtering script. -/
def FILTER_USERS : List String :=
  ["0x06253f963c242f3ac57201ff8298d7e5df3e8c4c",
   "0x43395c11f8f81db0cee08dedd2d45c377a955387"]

/-- The allow-list filter of `displayPositionSnapshots`:
`snapshots.filter(s => users.includes(s.owner.toLowerCase()))`,
with the allow-list as a parameter (the script reads the constant
`FILTER_USERS`). -/
def filteredSnapshots (users : List String) (snapshots : List Snapshot) : List Snapshot :=
  snapshots.filter (fun s => users.contains (toLowerCase s.owner))

/-- Insert a value under a string key into an insertion-ordered
association list: append to the existing bucket, or append a new bucket
at the end. This is the JS idiom
`if (!m[k]) { m[k] = []; } m[k].push(v)` on a plain object. -/
def upsert {α : Type} (k : String) (a : α) :
    List (String × List α) → List (String × List α)
  | [] => [(k, [a])]
  | p :: rest => if p.1 = k then (p.1, p.2 ++ [a]) :: rest else p :: upsert k a rest

/-- Group a list by a string key, keeping buckets in first-appearance
order and bucket contents in input order — the `forEach`/push grouping
idiom of the scripts followed by `Object.entries`. -/
def groupByKey {α : Type} (key : α → String) (l : List α) : List (String × List α) :=
  l.foldl (fun acc a => upsert (key a) a acc) []

/-- Embedding of `snapshotsByPool` in `displayPositionSnapshots`. -/
def snapshotsByPool (snapshots : List Snapshot) : List (String × List Snapshot) :=
  groupByKey (fun s => s.pool.id) snapshots

/-- Embedding of `snapshotsByUser` built inside each pool group. -/
def snapshotsByUser (poolSnapshots : List Snapshot) : List (String × List Snapshot) :=
  groupByKey (fun s => s.owner) poolSnapshots

/-- The nested pool → user grouping of `displayPositionSnapshots`. -/
def poolUserGroups (snapshots : List Snapshot) :
    List (String × List (String × List Snapshot)) :=
  (snapshotsByPool snapshots).map (fun pg => (pg.1, snapshotsByUser pg.2))

/-- The grouping key `snapshot.position?.id`: `none` when the
`position` reference is absent or its id is falsy (empty). -/
def positionId (s : Snapshot) : Option String :=
  match s.position with
  | some p => if p.id = "" then none else some p.id
  | none => none

/-- Embedding of `snapshotsByPosition` in `displayPositionTransactions`: snapshots
without a truthy `position?.id` are skipped. -/
def snapshotsByPosition (snapshots : List Snapshot) : List (String × List Snapshot) :=
  snapshots.foldl
    (fun acc s =>
      match positionId s with
      | some pid => upsert pid s acc
      | none => acc) []

/-- Stable insertion of a group into a list sorted by descending
snapshot count: the group goes after every group with at least as many
snapshots. -/
def insDesc {α : Type} (x : String × List α) :
    List (String × List α) → List (String × List α)
  | [] => [x]
  | y :: ys => if y.2.length < x.2.length then x :: y :: ys else y :: insDesc x ys

/-- Model of `.sort(([, a], [, b]) => b.length - a.length)`: JS
`Array.prototype.sort` is required to be stable, and the unique stable
descending-by-count order is produced by left-to-right stable insertion. -/
def sortByActivity {α : Type} (gs : List (String × List α)) :
    List (String × List α) :=
  gs.foldl (fun acc x => insDesc x acc) []

/-- Embedding of `sortedPositions` in `displayPositionTransactions`. -/
def sortedPositions (snapshots : List Snapshot) : List (String × List Snapshot) :=
  sortByActivity (snapshotsByPosition snapshots)

/-- The comparator's order: group `x` precedes group `y` when `y` has at
most as many snapshots (`b.length - a.length <= 0`). -/
def byCountDesc {α : Type} (x y : String × List α) : Prop :=
  y.2.length ≤ x.2.length

/-- Amount reading `parseFloat(field || 0)`: an absent/empty field counts as 0; a
non-numeric field is `NaN` (`none`). -/
def amtQ (s : String) : Option ℚ :=
  if s = "" then some 0 else parseFloatQ s

/-- Addition with `NaN` (`none`) absorption, as JS float addition
propagates `NaN`. -/
def addO : Option ℚ → Option ℚ → Option ℚ
  | some a, some b => some (a + b)
  | _, _ => none

/-- Subtraction with `NaN` (`none`) absorption. -/
def subO : Option ℚ → Option ℚ → Option ℚ
  | some a, some b => some (a - b)
  | _, _ => none

/-- Embedding of `totalDeposited0` accumulated over a per-position group. -/
def totalDeposited0 (g : List Snapshot) : Option ℚ :=
  g.foldl (fun acc s => addO acc (amtQ s.depositedToken0)) (some 0)

/-- Embedding of `totalDeposited1` accumulated over a per-position group. -/
def totalDeposited1 (g : List Snapshot) : Option ℚ :=
  g.foldl (fun acc s => addO acc (amtQ s.depositedToken1)) (some 0)

/-- Embedding of `totalWithdrawn0` accumulated over a per-position group. -/
def totalWithdrawn0 (g : List Snapshot) : Option ℚ :=
  g.foldl (fun acc s => addO acc (amtQ s.withdrawnToken0)) (some 0)

/-- Embedding of `totalWithdrawn1` accumulated over a per-position group. -/
def totalWithdrawn1 (g : List Snapshot) : Option ℚ :=
  g.foldl (fun acc s => addO acc (amtQ s.withdrawnToken1)) (some 0)

/-- Embedding of `netToken0 = totalDeposited0 - totalWithdrawn0`. -/
def netToken0 (g : List Snapshot) : Option ℚ :=
  subO (totalDeposited0 g) (totalWithdrawn0 g)

/-- Embedding of `netToken1 = totalDeposited1 - totalWithdrawn1`. -/
def netToken1 (g : List Snapshot) : Option ℚ :=
  subO (totalDeposited1 g) (totalWithdrawn1 g)

/-- The test `parseFloat(field || 0) > 0`, the positivity test of the
significant-event filter (`NaN` compares false). -/
def isPosAmt (s : String) : Bool :=
  match amtQ s with
  | some q => decide (0 < q)
  | none => false

/-- One of the six amounts of the snapshot is strictly positive:
the `hasDeposits || hasWithdrawals || hasFees` test. -/
def isSignificant (s : Snapshot) : Bool :=
  isPosAmt s.depositedToken0 || isPosAmt s.depositedToken1 ||
  isPosAmt s.withdrawnToken0 || isPosAmt s.withdrawnToken1 ||
  isPosAmt s.collectedFeesToken0 || isPosAmt s.collectedFeesToken1

/-- Embedding of `significantSnapshots` of a per-position group. -/
def significantSnapshots (g : List Snapshot) : List Snapshot :=
  g.filter isSignificant

/-- The printed timeline: `significantSnapshots.slice(0, 5)`. -/
def timelineEvents (g : List Snapshot) : List Snapshot :=
  (significantSnapshots g).take 5

/-- Whether the `"... and N more events"` remainder note is printed. -/
def timelineHasMoreNote (g : List Snapshot) : Bool :=
  decide (5 < (significantSnapshots g).length)

/-- Numerator of the `Average Activity per Position` statistic:
`snapshots.filter(s => s.position?.id).length`. -/
def avgActivityNumerator (snapshots : List Snapshot) : ℕ :=
  (snapshots.filter (fun s => (positionId s).isSome)).length

/-- Outcome of one `fetch`+`response.json()` round trip: either a decoded
response or a transport error (rejected promise). -/
inductive Transport (α : Type) where
  | ok : α → Transport α
  | failed : String → Transport α
deriving DecidableEq

/-- A decoded GraphQL response: an optional `errors` payload and the
optional requested entity under `data`. -/
structure GqlResp (α : Type) where
  errors : Option String
  entity : Option α
deriving DecidableEq

/-- Target pool of `fetch-thbill-positions.js`. -/
def POOL_ID : String := "0xc06e0fea115e54c54125dfe2f0509d5be55e4005"

/-- The K-HYPE token id of the unnamed script. -/
def KHYPE_TOKEN_ID : String := "0xfd739d4e423301ce9385c1fb8850539d657c296d"

/-- Embedding of `fetchPoolInfo`: one attempt; a transport error is
caught, logged and re-thrown; a response with an `errors` payload
throws; a missing `data.pool` throws; otherwise the decoded pool is
returned. The pool payload itself is opaque to this logic, so it is a
type parameter. -/
def fetchPoolInfo {α : Type} (r : Transport (GqlResp α)) : Except String α :=
  match r with
  | .failed e => .error e
  | .ok resp =>
    match resp.errors with
    | some e => .error ("GraphQL errors: " ++ e)
    | none =>
      match resp.entity with
      | some pool => .ok pool
      | none => .error ("Pool " ++ POOL_ID ++ " not found")

/-- A pool as listed by the all-pools query of the K-HYPE script. -/
structure PoolLite where
  id : String
  token0 : Tok
  token1 : Tok
deriving DecidableEq

/-- Embedding of `fetchKHypePools`: one attempt; transport errors and
`errors` payloads throw; a missing `data.pools` makes the client-side
`.filter` call throw a `TypeError` (caught, logged and re-thrown);
otherwise pools are filtered client-side for the K-HYPE token. -/
def fetchKHypePools (r : Transport (GqlResp (List PoolLite))) :
    Except String (List PoolLite) :=
  match r with
  | .failed e => .error e
  | .ok resp =>
    match resp.errors with
    | some e => .error ("GraphQL errors: " ++ e)
    | none =>
      match resp.entity with
      | some pools =>
          .ok (pools.filter (fun p =>
            toLowerCase p.token0.id == toLowerCase KHYPE_TOKEN_ID ||
            toLowerCase p.token1.id == toLowerCase KHYPE_TOKEN_ID))
      | none => .error "TypeError: cannot read pools"

/-- Embedding of `fetchKHypePositionSnapshots`: first the pools fetch
(whose failure propagates), then one snapshots query with the same
error discipline; on success the decoded snapshot list is returned
unchanged. -/
def fetchKHypePositionSnapshots (rPools : Transport (GqlResp (List PoolLite)))
    (rSnaps : Transport (GqlResp (List Snapshot))) : Except String (List Snapshot) :=
  match fetchKHypePools rPools with
  | .error e => .error e
  | .ok _ =>
    match rSnaps with
    | .failed e => .error e
    | .ok resp =>
      match resp.errors with
      | some e => .error ("GraphQL errors: " ++ e)
      | none =>
        match resp.entity with
        | some snaps => .ok snaps
        | none => .error "TypeError: cannot read positionSnapshots"

/-- A baseline snapshot for concrete instances; every amount is "0". -/
def baseSnap : Snapshot :=
  { id := "s0"
    owner := "0xA"
    pool := ⟨"0xp", ⟨"0xt0", "Token0"⟩, ⟨"0xt1", "Token1"⟩⟩
    position := some ⟨"p1"⟩
    blockNumber := "1"
    timestamp := "1700000000"
    liquidity := "0"
    depositedToken0 := "0"
    depositedToken1 := "0"
    withdrawnToken0 := "0"
    withdrawnToken1 := "0"
    collectedFeesToken0 := "0"
    collectedFeesToken1 := "0" }

/-- First snapshot of the spec's aggregation example. -/
def c6Snap1 : Snapshot := { baseSnap with depositedToken0 := "2", withdrawnToken0 := "0.5" }

/-- Second snapshot of the spec's aggregation example. -/
def c6Snap2 : Snapshot := { baseSnap with depositedToken0 := "1" }

/-- Snapshot whose owner matches an allow-list entry only up to case. -/
def c4Snap : Snapshot := { baseSnap with owner := "0xa" }

/-- Snapshot owned by the first configured `FILTER_USERS` entry. -/
def c4WitSnap : Snapshot := { baseSnap with owner := "0x06253f963c242f3ac57201ff8298d7e5df3e8c4c" }

/-- Snapshot with a negative (hence non-zero but not positive) amount. -/
def c8Snap : Snapshot := { baseSnap with depositedToken0 := "-1" }

/-- Two same-pool snapshots with distinct owners, for grouping instances. -/
def c5SnapA : Snapshot := { baseSnap with id := "sA", owner := "0xu1" }

/-- Second owner in the same pool. -/
def c5SnapB : Snapshot := { baseSnap with id := "sB", owner := "0xu2" }

/-- Snapshot without a position reference. -/
def c10SnapNone : Snapshot := { baseSnap with id := "s1", position := none }

/-- Concrete snapshot used to exhibit the empty-allow-list behaviour. -/
def c1Snap : Snapshot :=
  { id := "snap-1"
    owner := "0x06253f963c242f3ac57201ff8298d7e5df3e8c4c"
    pool := ⟨"0xpool", ⟨"0xt0", "Token0"⟩, ⟨"0xt1", "Token1"⟩⟩
    position := some ⟨"1"⟩
    blockNumber := "1"
    timestamp := "1700000000"
    liquidity := "0"
    depositedToken0 := "1"
    depositedToken1 := "0"
    withdrawnToken0 := "0"
    withdrawnToken1 := "0"
    collectedFeesToken0 := "0"
    collectedFeesToken1 := "0" }

theorem digitChar9_ne_dot (d : ℕ) : digitChar9 d ≠ '.' := by
  unfold digitChar9
  have h : d % 10 = 0 ∨ d % 10 = 1 ∨ d % 10 = 2 ∨ d % 10 = 3 ∨ d % 10 = 4 ∨
      d % 10 = 5 ∨ d % 10 = 6 ∨ d % 10 = 7 ∨ d % 10 = 8 ∨ d % 10 = 9 := by omega
  rcases h with h | h | h | h | h | h | h | h | h | h <;> rw [h] <;> decide

theorem natCharsAux_dotFree (fuel : ℕ) :
    ∀ n : ℕ, ∀ c ∈ natCharsAux fuel n, c ≠ '.' := by
  induction fuel with
  | zero => intro n c hc; simp [natCharsAux] at hc
  | succ fuel ih =>
    intro n c hc
    rw [natCharsAux] at hc
    by_cases h : n = 0
    · rw [if_pos h] at hc; simp at hc
    · rw [if_neg h] at hc
      rcases List.mem_cons.mp hc with h1 | h1
      · exact h1 ▸ digitChar9_ne_dot n
      · exact ih (n / 10) c h1

theorem natChars_dotFree (n : ℕ) : ∀ c ∈ natChars n, c ≠ '.' := by
  intro c hc
  unfold natChars at hc
  by_cases h : n = 0
  · rw [if_pos h] at hc
    simp at hc
    rw [hc]; decide
  · rw [if_neg h] at hc
    exact natCharsAux_dotFree n n c (List.mem_reverse.mp hc)

theorem padDigits_length (w : ℕ) : ∀ m : ℕ, (padDigits w m).length = w := by
  induction w with
  | zero => intro m; rfl
  | succ w ih => intro m; simp [padDigits, ih]

theorem fracTailLen_append (a b : List Char) (ha : ∀ c ∈ a, c ≠ '.') :
    fracTailLen (a ++ '.' :: b) = some b.length := by
  induction a with
  | nil => simp [fracTailLen]
  | cons c t ih =>
    have hc : c ≠ '.' := ha c (by simp)
    simp only [List.cons_append, fracTailLen, if_neg hc]
    exact ih (fun x hx => ha x (by simp [hx]))

theorem toFixedNN_fracTailLen (f : ℕ) (q : ℚ) :
    fracTailLen (toFixedNNChars f q) = some f := by
  unfold toFixedNNChars
  rw [fracTailLen_append _ _ (natChars_dotFree _), padDigits_length]

theorem mem_e_numberToStringExp (m : ℕ) : 'e' ∈ numberToStringExp m := by
  unfold numberToStringExp
  refine List.mem_append.mpr (Or.inr ?_)
  exact List.mem_cons_self _ _

theorem toFixed_fracTailLen (f : ℕ) (q : ℚ)
    (h1 : q < ((10 ^ 21 : ℕ) : ℚ)) (h2 : -(((10 ^ 21 : ℕ) : ℚ)) < q) :
    fracTailLen (toFixedChars f q) = some f := by
  unfold toFixedChars toFixedMagChars
  by_cases hq : q < 0
  · rw [if_pos hq, if_neg (not_le.mpr (neg_lt.mp h2))]
    rw [show fracTailLen ('-' :: toFixedNNChars f (-q)) =
        fracTailLen (toFixedNNChars f (-q)) from by simp [fracTailLen]]
    exact toFixedNN_fracTailLen f (-q)
  · rw [if_neg hq, if_neg (not_le.mpr h1)]
    exact toFixedNN_fracTailLen f q

theorem mk_toFixed_ne_zero (f : ℕ) (q : ℚ) :
    String.mk (toFixedChars f q) ≠ "0" := by
  intro h
  have hd : toFixedChars f q = "0".data := congrArg String.data h
  unfold toFixedChars at hd
  by_cases hq : q < 0
  · rw [if_pos hq] at hd
    rw [show ("0".data : List Char) = ['0'] from rfl] at hd
    exact absurd (List.cons.inj hd).1 (by decide)
  · rw [if_neg hq] at hd
    unfold toFixedMagChars at hd
    by_cases hbig : ((10 ^ 21 : ℕ) : ℚ) ≤ q
    · rw [if_pos hbig] at hd
      have he := mem_e_numberToStringExp (Rat.floor q).toNat
      rw [hd] at he
      exact absurd he (by decide)
    · rw [if_neg hbig] at hd
      have h3 := toFixedNN_fracTailLen f q
      rw [hd] at h3
      have h4 : fracTailLen "0".data = none := rfl
      rw [h4] at h3
      exact Option.noConfusion h3

/-- C3: `formatTokenAmount` returns the string `"0"` exactly when the
input is empty (falsy) or its parsed numeric value is exactly zero.
(The source also special-cases the literal input `"0"`, which parses to
zero, so it is covered by the right-hand side.) -/
theorem formatTokenAmount_eq_zero_iff (s : String) :
    formatTokenAmount s = "0" ↔ s = "" ∨ parseFloatQ s = some 0 := by
  unfold formatTokenAmount
  by_cases h : s = "" ∨ s = "0"
  · rw [if_pos h]
    constructor
    · intro _
      rcases h with h | h
      · exact Or.inl h
      · exact Or.inr (by rw [h]; exact rfl)
    · intro _; rfl
  · rw [if_neg h]
    rcases not_or.mp h with ⟨h1, h2⟩
    split
    · rename_i hp
      constructor
      · intro hN; exact absurd hN (by decide)
      · intro hr
        rcases hr with hr | hr
        · exact absurd hr h1
        · rw [hp] at hr; exact Option.noConfusion hr
    · rename_i q hp
      by_cases hq : q = 0
      · subst hq
        rw [if_pos rfl]
        constructor
        · intro _; exact Or.inr hp
        · intro _; rfl
      · rw [if_neg hq]
        constructor
        · intro hz
          by_cases h1q : 1 ≤ q
          · rw [if_pos h1q] at hz; exact absurd hz (mk_toFixed_ne_zero 6 q)
          · rw [if_neg h1q] at hz; exact absurd hz (mk_toFixed_ne_zero 12 q)
        · intro hr
          rcases hr with hr | hr
          · exact absurd hr h1
          · rw [hp] at hr
            exact absurd (Option.some.inj hr) hq

/-- C2 (amended): the precision branch tests the signed parsed value,
not its magnitude, and `toFixed` only fixes the precision below the
ECMAScript `10 ^ 21` cutoff: a parsed value `v` with `1 <= v < 10^21`
is rendered with exactly 6 fractional digits, and a non-zero value with
`-10^21 < v < 1` — all of `(0,1)`, and the negatives of magnitude below
the cutoff — with exactly 12. At magnitude `>= 10^21` the output is the
exponential `ToString` form with no fixed fraction digits. -/
theorem formatTokenAmount_fracDigits (s : String) (q : ℚ)
    (h : parseFloatQ s = some q) :
    (1 ≤ q → q < ((10 ^ 21 : ℕ) : ℚ) →
      fracCount (formatTokenAmount s) = some 6) ∧
    (q ≠ 0 → -(((10 ^ 21 : ℕ) : ℚ)) < q → q < 1 →
      fracCount (formatTokenAmount s) = some 12) := by
  have hse : s ≠ "" := by
    intro e; rw [e] at h; exact Option.noConfusion h
  have hT1 : (1 : ℚ) ≤ ((10 ^ 21 : ℕ) : ℚ) := by
    rw [show ((1 : ℚ) = ((1 : ℕ) : ℚ)) from by norm_num]
    exact_mod_cast Nat.one_le_iff_ne_zero.mpr (by norm_num)
  constructor
  · intro hq1 hqT
    have hq0 : q ≠ 0 := by intro e; rw [e] at hq1; norm_num at hq1
    have hs0 : s ≠ "0" := by
      intro e; rw [e] at h
      have : (0 : ℚ) = q := Option.some.inj h
      rw [← this] at hq1; norm_num at hq1
    unfold formatTokenAmount
    rw [if_neg (by simp [hse, hs0]), h]
    show fracTailLen (if q = 0 then ("0" : String) else
      if 1 ≤ q then String.mk (toFixedChars 6 q) else
        String.mk (toFixedChars 12 q)).data = some 6
    rw [if_neg hq0, if_pos hq1]
    exact toFixed_fracTailLen 6 q hqT (by linarith)
  · intro hq0 hmT hq1
    have hs0 : s ≠ "0" := by
      intro e; rw [e] at h
      exact hq0 ((Option.some.inj h).symm)
    unfold formatTokenAmount
    rw [if_neg (by simp [hse, hs0]), h]
    show fracTailLen (if q = 0 then ("0" : String) else
      if 1 ≤ q then String.mk (toFixedChars 6 q) else
        String.mk (toFixedChars 12 q)).data = some 12
    rw [if_neg hq0, if_neg (not_le.mpr hq1)]
    exact toFixed_fracTailLen 12 q (by linarith) hmT

/-- C2 (counterexample): two inputs of magnitude `>= 1` that are not
rendered with 6 fractional digits — `"-2"` gets 12 digits because the
source branches on `numAmount >= 1`, not on the magnitude, and the
plain decimal for `10 ^ 21` is rendered `"1e+21"` with no fixed
fraction digits because `toFixed` switches to `ToString` at that
magnitude. -/
theorem formatTokenAmount_magnitude_counterexample :
    parseFloatQ "-2" = some (-2) ∧ (1 : ℚ) ≤ |(-2 : ℚ)| ∧
    formatTokenAmount "-2" = "-2.000000000000" ∧
    fracCount (formatTokenAmount "-2") ≠ some 6 ∧
    parseFloatQ "1000000000000000000000" = some (((10 ^ 21 : ℕ) : ℚ)) ∧
    formatTokenAmount "1000000000000000000000" = "1e+21" ∧
    fracCount (formatTokenAmount "1000000000000000000000") ≠ some 6 := by
  refine ⟨rfl, by norm_num, rfl, by decide, ?_, rfl, by decide⟩
  rw [show parseFloatQ "1000000000000000000000" =
    some (mkRat ((10 ^ 21 : ℕ) : ℤ) 1) from rfl]
  norm_num [mkRat, Rat.normalize]

/-- C2 (witness): the amended statement at the concrete input `"2"`. -/
theorem formatTokenAmount_fracDigits_witness :
    parseFloatQ "2" = some 2 ∧
    ((1 ≤ (2 : ℚ) → (2 : ℚ) < ((10 ^ 21 : ℕ) : ℚ) →
       fracCount (formatTokenAmount "2") = some 6) ∧
     ((2 : ℚ) ≠ 0 → -(((10 ^ 21 : ℕ) : ℚ)) < 2 → (2 : ℚ) < 1 →
       fracCount (formatTokenAmount "2") = some 12)) :=
  ⟨rfl, formatTokenAmount_fracDigits "2" 2 rfl⟩

/-- C1: filtering with an empty allow-list does not return the input
unchanged — it removes every snapshot, since `[].includes(...)` is
always false and the script has no empty-list guard (contradicting both
the spec and the script's own usage comment). -/
theorem filteredSnapshots_empty_drops_all :
    (∀ snapshots : List Snapshot, filteredSnapshots [] snapshots = []) ∧
    filteredSnapshots [] [c1Snap] ≠ [c1Snap] := by
  constructor
  · intro ss
    unfold filteredSnapshots
    induction ss with
    | nil => rfl
    | cons s t ih => simp [List.filter, ih]
  · decide

theorem join_map_snd_upsert {α : Type} (k : String) (a : α)
    (gs : List (String × List α)) :
    List.Perm (((upsert k a gs).map Prod.snd).flatten)
      (a :: (gs.map Prod.snd).flatten) := by
  induction gs with
  | nil => simp [upsert]
  | cons p rest ih =>
    by_cases h : p.1 = k
    · simp only [upsert, if_pos h, List.map_cons, List.flatten_cons]
      rw [List.append_assoc]
      exact List.perm_middle
    · simp only [upsert, if_neg h, List.map_cons, List.flatten_cons]
      exact (List.Perm.append_left p.2 ih).trans List.perm_middle

theorem groupByKey_foldl_perm {α : Type} (key : α → String) (l : List α) :
    ∀ acc : List (String × List α),
      List.Perm (((l.foldl (fun acc a => upsert (key a) a acc) acc).map Prod.snd).flatten)
        ((acc.map Prod.snd).flatten ++ l) := by
  induction l with
  | nil => intro acc; simp
  | cons a t ih =>
    intro acc
    simp only [List.foldl_cons]
    exact (ih _).trans
      (((join_map_snd_upsert (key a) a acc).append_right t).trans
        List.perm_middle.symm)

theorem groupByKey_join_perm {α : Type} (key : α → String) (l : List α) :
    List.Perm (((groupByKey key l).map Prod.snd).flatten) l := by
  have h := groupByKey_foldl_perm key l []
  simpa [groupByKey] using h

theorem upsert_keyInv {α : Type} (key : α → String) (k : String) (a : α)
    (hk : key a = k) (gs : List (String × List α))
    (h : ∀ p ∈ gs, ∀ x ∈ p.2, key x = p.1) :
    ∀ p ∈ upsert k a gs, ∀ x ∈ p.2, key x = p.1 := by
  induction gs with
  | nil =>
    intro p hp x hx
    simp only [upsert, List.mem_singleton] at hp
    subst hp
    simp only [List.mem_singleton] at hx
    subst hx
    exact hk
  | cons g rest ih =>
    intro p hp x hx
    by_cases hg : g.1 = k
    · simp only [upsert, if_pos hg] at hp
      rcases List.mem_cons.mp hp with hp | hp
      · subst hp
        rcases List.mem_append.mp hx with hx | hx
        · exact h g (List.mem_cons_self _ _) x hx
        · simp only [List.mem_singleton] at hx
          subst hx
          exact hk.trans hg.symm
      · exact h p (List.mem_cons_of_mem _ hp) x hx
    · simp only [upsert, if_neg hg] at hp
      rcases List.mem_cons.mp hp with hp | hp
      · subst hp
        exact h p (List.mem_cons_self _ _) x hx
      · exact ih (fun r hr => h r (List.mem_cons_of_mem _ hr)) p hp x hx

theorem groupByKey_foldl_keyInv {α : Type} (key : α → String) (l : List α) :
    ∀ acc : List (String × List α),
      (∀ p ∈ acc, ∀ x ∈ p.2, key x = p.1) →
      ∀ p ∈ l.foldl (fun acc a => upsert (key a) a acc) acc,
        ∀ x ∈ p.2, key x = p.1 := by
  induction l with
  | nil => intro acc hacc; exact hacc
  | cons a t ih =>
    intro acc hacc
    simp only [List.foldl_cons]
    exact ih _ (upsert_keyInv key (key a) a rfl acc hacc)

theorem groupByKey_keyInv {α : Type} (key : α → String) (l : List α) :
    ∀ p ∈ groupByKey key l, ∀ x ∈ p.2, key x = p.1 :=
  groupByKey_foldl_keyInv key l [] (by intro p hp; simp at hp)

theorem mem_keys_upsert {α : Type} (k : String) (a : α)
    (gs : List (String × List α)) :
    ∀ k', k' ∈ (upsert k a gs).map Prod.fst → k' = k ∨ k' ∈ gs.map Prod.fst := by
  induction gs with
  | nil => intro k' h; simp [upsert] at h; exact Or.inl h
  | cons g rest ih =>
    intro k' h
    by_cases hg : g.1 = k
    · simp only [upsert, if_pos hg, List.map_cons] at h
      rcases List.mem_cons.mp h with h | h
      · exact Or.inr (by simp [h])
      · exact Or.inr (List.mem_cons_of_mem _ h)
    · simp only [upsert, if_neg hg, List.map_cons] at h
      rcases List.mem_cons.mp h with h | h
      · exact Or.inr (by simp [h])
      · rcases ih k' h with h | h
        · exact Or.inl h
        · exact Or.inr (List.mem_cons_of_mem _ h)

theorem keys_nodup_upsert {α : Type} (k : String) (a : α)
    (gs : List (String × List α)) (h : (gs.map Prod.fst).Nodup) :
    ((upsert k a gs).map Prod.fst).Nodup := by
  induction gs with
  | nil => simp [upsert]
  | cons g rest ih =>
    rw [List.map_cons, List.nodup_cons] at h
    by_cases hg : g.1 = k
    · simp only [upsert, if_pos hg, List.map_cons, List.nodup_cons]
      exact ⟨h.1, h.2⟩
    · simp only [upsert, if_neg hg, List.map_cons, List.nodup_cons]
      refine ⟨?_, ih h.2⟩
      intro hmem
      rcases mem_keys_upsert k a rest g.1 hmem with he | he
      · exact hg he
      · exact h.1 he

theorem groupByKey_foldl_keysNodup {α : Type} (key : α → String) (l : List α) :
    ∀ acc : List (String × List α), (acc.map Prod.fst).Nodup →
      ((l.foldl (fun acc a => upsert (key a) a acc) acc).map Prod.fst).Nodup := by
  induction l with
  | nil => intro acc hacc; exact hacc
  | cons a t ih =>
    intro acc hacc
    simp only [List.foldl_cons]
    exact ih _ (keys_nodup_upsert (key a) a acc hacc)

theorem groupByKey_keysNodup {α : Type} (key : α → String) (l : List α) :
    ((groupByKey key l).map Prod.fst).Nodup :=
  groupByKey_foldl_keysNodup key l [] (by simp)

theorem join_map_perm_of_forall {α β : Type} (l : List α) (f g : α → List β)
    (h : ∀ x ∈ l, List.Perm (f x) (g x)) :
    List.Perm ((l.map f).flatten) ((l.map g).flatten) := by
  induction l with
  | nil => exact List.Perm.refl _
  | cons a t ih =>
    simp only [List.map_cons, List.flatten_cons]
    exact (h a (List.mem_cons_self _ _)).append
      (ih (fun x hx => h x (List.mem_cons_of_mem _ hx)))

theorem insDesc_perm {α : Type} (x : String × List α) (l : List (String × List α)) :
    List.Perm (insDesc x l) (x :: l) := by
  induction l with
  | nil => exact List.Perm.refl _
  | cons y ys ih =>
    simp only [insDesc]
    by_cases h : y.2.length < x.2.length
    · rw [if_pos h]
    · rw [if_neg h]
      exact (ih.cons y).trans (List.Perm.swap x y ys)

theorem insDesc_sorted {α : Type} (x : String × List α)
    (l : List (String × List α)) (h : List.Sorted byCountDesc l) :
    List.Sorted byCountDesc (insDesc x l) := by
  induction l with
  | nil => simp [insDesc]
  | cons y ys ih =>
    rw [List.sorted_cons] at h
    simp only [insDesc]
    by_cases hlt : y.2.length < x.2.length
    · rw [if_pos hlt, List.sorted_cons]
      refine ⟨?_, List.sorted_cons.mpr h⟩
      intro b hb
      rcases List.mem_cons.mp hb with rfl | hb
      · exact le_of_lt hlt
      · exact le_trans (h.1 b hb) (le_of_lt hlt)
    · rw [if_neg hlt, List.sorted_cons]
      refine ⟨?_, ih h.2⟩
      intro b hb
      rcases List.mem_cons.mp ((insDesc_perm x ys).mem_iff.mp hb) with rfl | hb
      · exact Nat.le_of_not_lt hlt
      · exact h.1 b hb

theorem sortByActivity_perm {α : Type} (gs : List (String × List α)) :
    List.Perm (sortByActivity gs) gs := by
  suffices h : ∀ acc : List (String × List α),
      List.Perm (gs.foldl (fun acc x => insDesc x acc) acc) (acc ++ gs) by
    simpa [sortByActivity] using h []
  induction gs with
  | nil => intro acc; simp
  | cons g t ih =>
    intro acc
    simp only [List.foldl_cons]
    exact (ih _).trans
      (((insDesc_perm g acc).append_right t).trans List.perm_middle.symm)

theorem sortByActivity_sorted {α : Type} (gs : List (String × List α)) :
    List.Sorted byCountDesc (sortByActivity gs) := by
  suffices h : ∀ acc : List (String × List α), List.Sorted byCountDesc acc →
      List.Sorted byCountDesc (gs.foldl (fun acc x => insDesc x acc) acc) from
    h [] (by simp)
  induction gs with
  | nil => intro acc hacc; exact hacc
  | cons g t ih =>
    intro acc hacc
    simp only [List.foldl_cons]
    exact ih _ (insDesc_sorted g acc hacc)

theorem filter_len_insDesc {α : Type} (x : String × List α) (n : ℕ)
    (l : List (String × List α)) (hl : List.Sorted byCountDesc l) :
    (insDesc x l).filter (fun g => g.2.length == n) =
      if x.2.length = n then l.filter (fun g => g.2.length == n) ++ [x]
      else l.filter (fun g => g.2.length == n) := by
  induction l with
  | nil =>
    simp only [insDesc]
    by_cases hx : x.2.length = n
    · rw [if_pos hx, List.filter_cons_of_pos (by simp [hx])]
      rfl
    · rw [if_neg hx, List.filter_cons_of_neg (by simp [hx])]
  | cons y ys ih =>
    rw [List.sorted_cons] at hl
    simp only [insDesc]
    by_cases hlt : y.2.length < x.2.length
    · rw [if_pos hlt]
      by_cases hx : x.2.length = n
      · rw [if_pos hx]
        have hnil : (y :: ys).filter (fun g => g.2.length == n) = [] := by
          rw [List.filter_eq_nil_iff]
          intro a ha
          rcases List.mem_cons.mp ha with rfl | ha
          · simp only [beq_iff_eq]; omega
          · have h2 : a.2.length ≤ y.2.length := hl.1 a ha
            simp only [beq_iff_eq]; omega
        rw [List.filter_cons_of_pos (by simp [hx]), hnil]
        rfl
      · rw [if_neg hx, List.filter_cons_of_neg (by simp [hx])]
    · rw [if_neg hlt]
      rw [List.filter_cons, List.filter_cons, ih hl.2]
      by_cases hx : x.2.length = n
      · rw [if_pos hx, if_pos hx]
        by_cases hy : (y.2.length == n) = true
        · simp [hy]
        · simp [hy]
      · rw [if_neg hx, if_neg hx]

theorem sortByActivity_filter_len {α : Type} (gs : List (String × List α)) (n : ℕ) :
    (sortByActivity gs).filter (fun g => g.2.length == n) =
      gs.filter (fun g => g.2.length == n) := by
  suffices h : ∀ acc : List (String × List α), List.Sorted byCountDesc acc →
      (gs.foldl (fun acc x => insDesc x acc) acc).filter (fun g => g.2.length == n) =
        acc.filter (fun g => g.2.length == n) ++ gs.filter (fun g => g.2.length == n) by
    simpa [sortByActivity] using h [] (by simp)
  induction gs with
  | nil => intro acc _; simp
  | cons g t ih =>
    intro acc hacc
    simp only [List.foldl_cons]
    rw [ih _ (insDesc_sorted g acc hacc), filter_len_insDesc g n acc hacc,
      List.filter_cons]
    by_cases hg : g.2.length = n
    · rw [if_pos hg, if_pos (by simp [hg])]
      simp
    · rw [if_neg hg, if_neg (by simp [hg])]

/-- C7: the per-position groups are emitted sorted by descending
snapshot count, and groups with equal counts keep their relative order
from the grouping (`Array.prototype.sort` is stable, and stability is
expressed here by the equal-count subsequences being unchanged). -/
theorem sortByActivity_spec {α : Type} (gs : List (String × List α)) :
    List.Perm (sortByActivity gs) gs ∧
    List.Sorted byCountDesc (sortByActivity gs) ∧
    ∀ n : ℕ, (sortByActivity gs).filter (fun g => g.2.length == n) =
      gs.filter (fun g => g.2.length == n) :=
  ⟨sortByActivity_perm gs, sortByActivity_sorted gs,
    fun n => sortByActivity_filter_len gs n⟩

/-- C5: grouping first by pool id and then by owner partitions the
input exactly: flattening all owner subgroups of all pool groups is a
permutation of the input (so every input snapshot appears exactly once
across the groups and nothing else does), every grouped snapshot sits
under its own pool id and owner, and pool keys — and owner keys within
each pool — are pairwise distinct, so the pool group and owner subgroup
holding a given snapshot are unique. -/
theorem poolUserGroups_partition (ss : List Snapshot) :
    List.Perm (((poolUserGroups ss).map
      (fun pg => (pg.2.map Prod.snd).flatten)).flatten) ss ∧
    (∀ pg ∈ poolUserGroups ss, ∀ ug ∈ pg.2, ∀ s ∈ ug.2,
      s.pool.id = pg.1 ∧ s.owner = ug.1) ∧
    ((poolUserGroups ss).map Prod.fst).Nodup ∧
    (∀ pg ∈ poolUserGroups ss, (pg.2.map Prod.fst).Nodup) := by
  refine ⟨?_, ?_, ?_, ?_⟩
  · unfold poolUserGroups
    rw [List.map_map]
    refine (join_map_perm_of_forall (snapshotsByPool ss) _ Prod.snd
      (fun pg _ => groupByKey_join_perm (fun s => s.owner) pg.2)).trans ?_
    exact groupByKey_join_perm (fun s => s.pool.id) ss
  · intro pg hpg ug hug s hs
    unfold poolUserGroups at hpg
    rcases List.mem_map.mp hpg with ⟨pg0, hpg0, rfl⟩
    unfold snapshotsByPool at hpg0
    have hug' : ug ∈ snapshotsByUser pg0.2 := hug
    unfold snapshotsByUser at hug'
    constructor
    · have hj : s ∈ ((groupByKey (fun s => s.owner) pg0.2).map Prod.snd).flatten :=
        List.mem_flatten.mpr ⟨ug.2, List.mem_map_of_mem _ hug', hs⟩
      have hsp : s ∈ pg0.2 :=
        (groupByKey_join_perm (fun s => s.owner) pg0.2).mem_iff.mp hj
      exact groupByKey_keyInv (fun s => s.pool.id) ss pg0 hpg0 s hsp
    · exact groupByKey_keyInv (fun s => s.owner) pg0.2 ug hug' s hs
  · unfold poolUserGroups
    rw [List.map_map]
    exact groupByKey_keysNodup (fun s => s.pool.id) ss
  · intro pg hpg
    unfold poolUserGroups at hpg
    rcases List.mem_map.mp hpg with ⟨pg0, _, rfl⟩
    exact groupByKey_keysNodup (fun s => s.owner) pg0.2

/-- C5 (witness): the partition property at a concrete two-snapshot
input with one pool and two owners. -/
theorem poolUserGroups_partition_witness :
    List.Perm (((poolUserGroups [c5SnapA, c5SnapB]).map
      (fun pg => (pg.2.map Prod.snd).flatten)).flatten) [c5SnapA, c5SnapB] ∧
    (∀ pg ∈ poolUserGroups [c5SnapA, c5SnapB], ∀ ug ∈ pg.2, ∀ s ∈ ug.2,
      s.pool.id = pg.1 ∧ s.owner = ug.1) ∧
    ((poolUserGroups [c5SnapA, c5SnapB]).map Prod.fst).Nodup ∧
    (∀ pg ∈ poolUserGroups [c5SnapA, c5SnapB], (pg.2.map Prod.fst).Nodup) :=
  poolUserGroups_partition [c5SnapA, c5SnapB]

theorem snapshotsByPosition_eq_groupBy (ss : List Snapshot) :
    snapshotsByPosition ss =
      groupByKey (fun s => (positionId s).getD "")
        (ss.filter (fun s => (positionId s).isSome)) := by
  suffices h : ∀ acc : List (String × List Snapshot),
      ss.foldl (fun acc s =>
        match positionId s with
        | some pid => upsert pid s acc
        | none => acc) acc =
      (ss.filter (fun s => (positionId s).isSome)).foldl
        (fun acc a => upsert ((positionId a).getD "") a acc) acc from
    h []
  induction ss with
  | nil => intro acc; rfl
  | cons s t ih =>
    intro acc
    cases hp : positionId s with
    | none => simp only [List.foldl_cons, List.filter_cons, hp, Option.isSome_none,
        Bool.false_eq_true, if_false, ih]
    | some pid => simp only [List.foldl_cons, List.filter_cons, hp, Option.isSome_some,
        if_true, Option.getD_some, ih]

/-- C10: snapshots whose `position` reference is absent or has a falsy
id are excluded from the position grouping (they are in no group; the
groups flatten to exactly the snapshots with a position id, each under
its own id) and the average-activity numerator counts exactly the
snapshots with a position id. -/
theorem snapshotsByPosition_excludes (ss : List Snapshot) :
    List.Perm (((snapshotsByPosition ss).map Prod.snd).flatten)
      (ss.filter (fun s => (positionId s).isSome)) ∧
    (∀ g ∈ snapshotsByPosition ss, ∀ s ∈ g.2, positionId s = some g.1) ∧
    (∀ s ∈ ss, positionId s = none → ∀ g ∈ snapshotsByPosition ss, s ∉ g.2) ∧
    avgActivityNumerator ss = (ss.filter (fun s => (positionId s).isSome)).length := by
  have h2 : ∀ g ∈ snapshotsByPosition ss, ∀ s ∈ g.2, positionId s = some g.1 := by
    intro g hg s hs
    rw [snapshotsByPosition_eq_groupBy] at hg
    have hkey := groupByKey_keyInv (fun s => (positionId s).getD "") _ g hg s hs
    have hj : s ∈ ((groupByKey (fun s => (positionId s).getD "")
        (ss.filter (fun s => (positionId s).isSome))).map Prod.snd).flatten :=
      List.mem_flatten.mpr ⟨g.2, List.mem_map_of_mem _ hg, hs⟩
    have hmem : s ∈ ss.filter (fun s => (positionId s).isSome) :=
      (groupByKey_join_perm _ _).mem_iff.mp hj
    have hsome : (positionId s).isSome = true := by
      simpa using (List.mem_filter.mp hmem).2
    rcases Option.isSome_iff_exists.mp hsome with ⟨pid, hpid⟩
    have hkey' : (positionId s).getD "" = g.1 := hkey
    rw [hpid] at hkey' ⊢
    simp only [Option.getD_some] at hkey'
    rw [hkey']
  refine ⟨?_, h2, ?_, rfl⟩
  · rw [snapshotsByPosition_eq_groupBy]
    exact groupByKey_join_perm _ _
  · intro s _ hnone g hg hs
    rw [h2 g hg s hs] at hnone
    exact Option.noConfusion hnone

/-- C10 (witness): the exclusion property at a concrete input holding
one snapshot with a position id and one without. -/
theorem snapshotsByPosition_excludes_witness :
    List.Perm (((snapshotsByPosition [baseSnap, c10SnapNone]).map Prod.snd).flatten)
      ([baseSnap, c10SnapNone].filter (fun s => (positionId s).isSome)) ∧
    (∀ g ∈ snapshotsByPosition [baseSnap, c10SnapNone], ∀ s ∈ g.2,
      positionId s = some g.1) ∧
    (∀ s ∈ [baseSnap, c10SnapNone], positionId s = none →
      ∀ g ∈ snapshotsByPosition [baseSnap, c10SnapNone], s ∉ g.2) ∧
    avgActivityNumerator [baseSnap, c10SnapNone] =
      ([baseSnap, c10SnapNone].filter (fun s => (positionId s).isSome)).length :=
  snapshotsByPosition_excludes [baseSnap, c10SnapNone]

/-- C4 (amended): the filter keeps, in their original relative order
(a sublist), exactly the snapshots whose lowercased owner is an element
of the allow-list. The source lowercases only the owner, not the list
entries, so this coincides with case-insensitive matching exactly when
every allow-list entry is already lowercase (as the two configured
`FILTER_USERS` entries are). -/
theorem filteredSnapshots_spec (users : List String) (ss : List Snapshot)
    (_hne : users ≠ []) :
    List.Sublist (filteredSnapshots users ss) ss ∧
    (∀ s : Snapshot, s ∈ filteredSnapshots users ss ↔
      s ∈ ss ∧ toLowerCase s.owner ∈ users) ∧
    ((∀ u ∈ users, toLowerCase u = u) →
      ∀ s : Snapshot, (toLowerCase s.owner ∈ users ↔
        ∃ u ∈ users, toLowerCase s.owner = toLowerCase u)) := by
  refine ⟨List.filter_sublist _, ?_, ?_⟩
  · intro s
    simp [filteredSnapshots, List.mem_filter]
  · intro hlower s
    constructor
    · intro hm
      exact ⟨toLowerCase s.owner, hm, (hlower _ hm).symm⟩
    · rintro ⟨u, hu, he⟩
      rw [he, hlower u hu]
      exact hu

/-- C4 (counterexample): with the non-empty allow-list `["0xA"]`, the
snapshot owned by `"0xa"` matches the entry case-insensitively, yet the
filter drops it, because only the owner side is lowercased. -/
theorem filteredSnapshots_case_counterexample :
    (["0xA"] : List String) ≠ [] ∧
    toLowerCase c4Snap.owner = toLowerCase "0xA" ∧
    filteredSnapshots ["0xA"] [c4Snap] = [] := by
  refine ⟨by decide, by decide, by decide⟩

/-- C4 (witness): the amended statement at the configured allow-list
and a single matching snapshot. -/
theorem filteredSnapshots_spec_witness :
    FILTER_USERS ≠ [] ∧
    (List.Sublist (filteredSnapshots FILTER_USERS [c4WitSnap]) [c4WitSnap] ∧
     (∀ s : Snapshot, s ∈ filteredSnapshots FILTER_USERS [c4WitSnap] ↔
       s ∈ [c4WitSnap] ∧ toLowerCase s.owner ∈ FILTER_USERS) ∧
     ((∀ u ∈ FILTER_USERS, toLowerCase u = u) →
       ∀ s : Snapshot, (toLowerCase s.owner ∈ FILTER_USERS ↔
         ∃ u ∈ FILTER_USERS, toLowerCase s.owner = toLowerCase u))) :=
  ⟨by decide, filteredSnapshots_spec FILTER_USERS [c4WitSnap] (by decide)⟩

/-- C6: for every per-position group and both tokens, the computed net
position is the computed total deposited minus the computed total
withdrawn (exactly as the source computes it), and on the spec's example
group the aggregates are totalDeposited0 = 3, totalWithdrawn0 = 0.5,
net0 = 2.5. -/
theorem netPosition_spec :
    (∀ g : List Snapshot,
      netToken0 g = subO (totalDeposited0 g) (totalWithdrawn0 g) ∧
      netToken1 g = subO (totalDeposited1 g) (totalWithdrawn1 g)) ∧
    totalDeposited0 [c6Snap1, c6Snap2] = some 3 ∧
    totalWithdrawn0 [c6Snap1, c6Snap2] = some (1 / 2) ∧
    netToken0 [c6Snap1, c6Snap2] = some (5 / 2) := by
  refine ⟨fun g => ⟨rfl, rfl⟩, ?_, ?_, ?_⟩
  · rw [show totalDeposited0 [c6Snap1, c6Snap2] = some (0 + 2 + 1) from rfl]
    norm_num
  · rw [show totalWithdrawn0 [c6Snap1, c6Snap2] = some (0 + mkRat 1 2 + 0) from rfl]
    norm_num [mkRat, Rat.normalize]
  · rw [show netToken0 [c6Snap1, c6Snap2] = some (0 + 2 + 1 - (0 + mkRat 1 2 + 0)) from rfl]
    norm_num [mkRat, Rat.normalize]

/-- C8 (amended): a snapshot enters the significance filter (and hence
the timeline) exactly when one of its six amounts is strictly positive
(`parseFloat(x || 0) > 0`, so a hypothetical negative amount does not
count, which is where the claim's "non-zero" is corrected); the printed
timeline is the first 5 significant events, with a remainder note
exactly when more than 5 exist. -/
theorem significantSnapshots_spec (g : List Snapshot) (s : Snapshot) :
    (s ∈ significantSnapshots g ↔ s ∈ g ∧
      (isPosAmt s.depositedToken0 = true ∨ isPosAmt s.depositedToken1 = true ∨
       isPosAmt s.withdrawnToken0 = true ∨ isPosAmt s.withdrawnToken1 = true ∨
       isPosAmt s.collectedFeesToken0 = true ∨ isPosAmt s.collectedFeesToken1 = true)) ∧
    timelineEvents g = (significantSnapshots g).take 5 ∧
    (timelineHasMoreNote g = true ↔ 5 < (significantSnapshots g).length) := by
  refine ⟨?_, rfl, ?_⟩
  · simp [significantSnapshots, List.mem_filter, isSignificant, or_assoc]
  · simp [timelineHasMoreNote]

/-- C8 (counterexample): a snapshot whose only non-zero amount is the
negative `"-1"` has a non-zero amount but is not significant, so it is
excluded from the timeline — refuting "non-zero" as the criterion. -/
theorem significantSnapshots_nonzero_counterexample :
    amtQ c8Snap.depositedToken0 = some (-1) ∧ ((-1 : ℚ) ≠ 0) ∧
    significantSnapshots [c8Snap] = [] ∧ timelineEvents [c8Snap] = [] := by
  refine ⟨rfl, by norm_num, by decide, by decide⟩

/-- C9: each fetch consumes exactly one transport outcome per call (the
model takes the single response as its argument — there is no retry in
the control flow) and fails exactly when the transport errors, the
decoded response carries an `errors` payload, or the required entity
(the named pool; for the K-HYPE script, the queried collection) is
absent; otherwise it returns the decoded result. Errors propagate to
the caller (the re-throw). -/
theorem fetch_spec {α : Type} :
    (∀ m : String, fetchPoolInfo (α := α) (.failed m) = .error m) ∧
    (∀ (e : String) (ent : Option α),
      fetchPoolInfo (Transport.ok ⟨some e, ent⟩) = .error ("GraphQL errors: " ++ e)) ∧
    (fetchPoolInfo (α := α) (Transport.ok ⟨none, none⟩) =
      .error ("Pool " ++ POOL_ID ++ " not found")) ∧
    (∀ p : α, fetchPoolInfo (Transport.ok ⟨none, some p⟩) = .ok p) ∧
    (∀ r : Transport (GqlResp α),
      (∃ e, fetchPoolInfo r = .error e) ↔
        (∃ m, r = .failed m) ∨
        (∃ resp, r = .ok resp ∧ (resp.errors ≠ none ∨ resp.entity = none))) ∧
    (∀ (pools : List PoolLite) (snaps : List Snapshot),
      fetchKHypePositionSnapshots (Transport.ok ⟨none, some pools⟩)
        (Transport.ok ⟨none, some snaps⟩) = .ok snaps) ∧
    (∀ rP rS, (∃ e, fetchKHypePositionSnapshots rP rS = .error e) ↔
      ((∃ e, fetchKHypePools rP = .error e) ∨
       (∃ m, rS = .failed m) ∨
       (∃ resp, rS = .ok resp ∧ (resp.errors ≠ none ∨ resp.entity = none)))) := by
  refine ⟨fun m => rfl, fun e ent => rfl, rfl, fun p => rfl, ?_, fun pools snaps => rfl, ?_⟩
  · intro r
    constructor
    · rintro ⟨e, he⟩
      rcases r with resp | m
      · rcases resp with ⟨errs, ent⟩
        cases errs with
        | some e0 => exact Or.inr ⟨⟨some e0, ent⟩, rfl, Or.inl (by simp)⟩
        | none =>
          cases ent with
          | some p => exact absurd he (by simp [fetchPoolInfo])
          | none => exact Or.inr ⟨⟨none, none⟩, rfl, Or.inr rfl⟩
      · exact Or.inl ⟨m, rfl⟩
    · rintro (⟨m, rfl⟩ | ⟨resp, rfl, hbad⟩)
      · exact ⟨m, rfl⟩
      · rcases resp with ⟨errs, ent⟩
        rcases hbad with hbad | hbad
        · cases errs with
          | none => exact absurd rfl hbad
          | some e => exact ⟨"GraphQL errors: " ++ e, rfl⟩
        · have hent : ent = none := hbad
          subst hent
          cases errs with
          | some e => exact ⟨"GraphQL errors: " ++ e, rfl⟩
          | none => exact ⟨"Pool " ++ POOL_ID ++ " not found", rfl⟩
  · intro rP rS
    constructor
    · rintro ⟨e, he⟩
      cases hP : fetchKHypePools rP with
      | error e0 => exact Or.inl ⟨e0, rfl⟩
      | ok pools =>
        unfold fetchKHypePositionSnapshots at he
        rw [hP] at he
        rcases rS with resp | m
        · rcases resp with ⟨errs, ent⟩
          cases errs with
          | some e1 => exact Or.inr (Or.inr ⟨⟨some e1, ent⟩, rfl, Or.inl (by simp)⟩)
          | none =>
            cases ent with
            | some snaps => exact absurd he (by simp)
            | none => exact Or.inr (Or.inr ⟨⟨none, none⟩, rfl, Or.inr rfl⟩)
        · exact Or.inr (Or.inl ⟨m, rfl⟩)
    · rintro (⟨e, hP⟩ | ⟨m, rfl⟩ | ⟨resp, rfl, hbad⟩)
      · exact ⟨e, by unfold fetchKHypePositionSnapshots; rw [hP]⟩
      · cases hP : fetchKHypePools rP with
        | error e0 => exact ⟨e0, by unfold fetchKHypePositionSnapshots; rw [hP]⟩
        | ok pools => exact ⟨m, by unfold fetchKHypePositionSnapshots; rw [hP]⟩
      · cases hP : fetchKHypePools rP with
        | error e0 => exact ⟨e0, by unfold fetchKHypePositionSnapshots; rw [hP]⟩
        | ok pools =>
          rcases resp with ⟨errs, ent⟩
          rcases hbad with hbad | hbad
          · cases errs with
            | none => exact absurd rfl hbad
            | some e1 =>
              exact ⟨"GraphQL errors: " ++ e1,
                by unfold fetchKHypePositionSnapshots; rw [hP]⟩
          · have hent : ent = none := hbad
            subst hent
            cases errs with
            | some e1 =>
              exact ⟨"GraphQL errors: " ++ e1,
                by unfold fetchKHypePositionSnapshots; rw [hP]⟩
            | none =>
              exact ⟨"TypeError: cannot read positionSnapshots",
                by unfold fetchKHypePositionSnapshots; rw [hP]⟩
